import Mathlib

/-
  Verification of the terminal key-press decoder (tui-js/inputs).

  The decoder's branch functions come from the TypeScript source file that
  defines decodeXTermUtf8Key, decodeXTermSS3FunctionKeys and
  decodeXTermCSIFunctionKeys.  Buffers are byte lists (JS Uint8Array);
  `buffer[i]?` models a JS index read, `none` standing for `undefined`.
  JS numeric expressions that can be NaN (index reads and the fKey
  arithmetic on possibly-undefined bytes) are modelled as `Option Int`
  with `none` for NaN; every comparison with NaN is false, and
  template-string interpolation of NaN prints "NaN", as in JS.

  The branch functions in the source hand a primary event together with a
  consumed length to `maybeMultiple` (the Multi-Event Splitter) from the
  repository's decode.ts, a file that is not among the provided sources
  (only an older, single-event decode.ts is).  Accordingly the branch
  functions here return the pair (event, consumed length), and the
  splitter plus the dispatcher are modelled from the spec at the top
  level (`decodeBufferAux` / `decodeBuffer`).
-/

/-- The sole output entity of the decoder: a key name with four modifier
flags, mirroring the KeyPress/KeyEvent interface of the source. -/
structure KeyEvent where
  key : String
  shift : Bool := false
  ctrl : Bool := false
  meta : Bool := false
  alt : Bool := false
deriving Repr, DecidableEq

/-- keyEvent / keyPress constructor of the source: all modifiers default false. -/
def keyEvent (key : String) : KeyEvent := { key := key }

/-- JS `buffer[i] === v` for a byte constant `v` (false when the index read is undefined). -/
def idxEq (buffer : List Nat) (i v : Nat) : Bool := buffer[i]? == some v

/-- JS `buffer[i] >= v` (false when undefined, as NaN comparisons are). -/
def idxGe (buffer : List Nat) (i v : Nat) : Bool :=
  match buffer[i]? with
  | some b => decide (v ≤ b)
  | none => false

/-- JS `buffer[i] <= v` (false when undefined). -/
def idxLe (buffer : List Nat) (i v : Nat) : Bool :=
  match buffer[i]? with
  | some b => decide (b ≤ v)
  | none => false

/-- JS `buffer[i] > v` (false when undefined). -/
def idxGt (buffer : List Nat) (i v : Nat) : Bool :=
  match buffer[i]? with
  | some b => decide (v < b)
  | none => false

/-- JS `buffer[i] - k` as a JS number: an integer, or NaN (`none`) when the read is undefined. -/
def idxSub (buffer : List Nat) (i : Nat) (k : Int) : Option Int :=
  (buffer[i]?).map (fun b => (b : Int) - k)

/-- JS `a > k` on a possibly-NaN number. -/
def nanGt (a : Option Int) (k : Int) : Bool :=
  match a with
  | some v => decide (k < v)
  | none => false

/-- JS `a < k` on a possibly-NaN number. -/
def nanLt (a : Option Int) (k : Int) : Bool :=
  match a with
  | some v => decide (v < k)
  | none => false

/-- JS template string interpolation of a possibly-NaN number after the letter f,
as in the source's f-key names (NaN prints "NaN" in JS). -/
def fString (a : Option Int) : String :=
  "f" ++ (match a with
          | some v => toString v
          | none => "NaN")

/-- JS `String.fromCharCode` for one code unit (the source only applies it to bytes). -/
def fromCharCode (n : Nat) : String := String.mk [Char.ofNat n]

/-- One step of the WHATWG UTF-8 decoder on a byte met in the "no sequence
pending" state: the code points emitted for that byte, then the new
(codepoint, bytesNeeded, lowerBoundary, upperBoundary) state. -/
def utf8StartByte (b : Nat) : List Nat × Nat × Nat × Nat × Nat :=
  if b ≤ 0x7F then ([b], 0, 0, 0x80, 0xBF)
  else if 0xC2 ≤ b ∧ b ≤ 0xDF then ([], b &&& 0x1F, 1, 0x80, 0xBF)
  else if 0xE0 ≤ b ∧ b ≤ 0xEF then
    ([], b &&& 0xF, 2, if b = 0xE0 then 0xA0 else 0x80, if b = 0xED then 0x9F else 0xBF)
  else if 0xF0 ≤ b ∧ b ≤ 0xF4 then
    ([], b &&& 0x7, 3, if b = 0xF0 then 0x90 else 0x80, if b = 0xF4 then 0x8F else 0xBF)
  else ([0xFFFD], 0, 0, 0x80, 0xBF)

/-- The WHATWG UTF-8 decoder loop, the algorithm behind JS
`new TextDecoder().decode`: state is (codepoint, bytesSeen, bytesNeeded,
lowerBoundary, upperBoundary); invalid input emits U+FFFD, and a byte that
aborts a pending sequence is reprocessed as a fresh start byte. -/
def utf8DecodeLoop : List Nat → Nat → Nat → Nat → Nat → Nat → List Nat
  | [], _, _, needed, _, _ => if needed = 0 then [] else [0xFFFD]
  | b :: rest, cp, seen, needed, lo, hi =>
    if needed = 0 then
      let s := utf8StartByte b
      s.1 ++ utf8DecodeLoop rest s.2.1 0 s.2.2.1 s.2.2.2.1 s.2.2.2.2
    else if lo ≤ b ∧ b ≤ hi then
      let cpn := (cp <<< 6) ||| (b &&& 0x3F)
      if seen + 1 = needed then cpn :: utf8DecodeLoop rest 0 0 0 0x80 0xBF
      else utf8DecodeLoop rest cpn (seen + 1) needed lo hi
    else
      let s := utf8StartByte b
      0xFFFD :: (s.1 ++ utf8DecodeLoop rest s.2.1 0 s.2.2.1 s.2.2.2.1 s.2.2.2.2)

/-- JS `new TextDecoder().decode(bytes)` (UTF-8 with replacement), at the
code-point level. -/
def utf8DecodeString (bytes : List Nat) : String :=
  String.mk ((utf8DecodeLoop bytes 0 0 0 0x80 0xBF).map Char.ofNat)

/-- Model of JS `String.prototype.toUpperCase` on one code point, restricted
to the code points this development evaluates it at: exact on ASCII and on
U+0104/U+0105; identity elsewhere. -/
def jsUpperChar (c : Char) : Char :=
  if 'a' ≤ c ∧ c ≤ 'z' then Char.ofNat (c.toNat - 32)
  else if c = Char.ofNat 0x105 then Char.ofNat 0x104
  else c

/-- Model of JS `String.prototype.toLowerCase` on one code point, with the
same restriction as `jsUpperChar`. -/
def jsLowerChar (c : Char) : Char :=
  if 'A' ≤ c ∧ c ≤ 'Z' then Char.ofNat (c.toNat + 32)
  else if c = Char.ofNat 0x104 then Char.ofNat 0x105
  else c

/-- JS `s.toUpperCase()` under the code-point model above. -/
def jsToUpper (s : String) : String := String.mk (s.data.map jsUpperChar)

/-- JS `s.toLowerCase()` under the code-point model above. -/
def jsToLower (s : String) : String := String.mk (s.data.map jsLowerChar)

/-- The source's case heuristic for multi-byte characters:
`character.toUpperCase() === character && character.toLowerCase() !== character`. -/
def jsUpperShift (s : String) : Bool := (jsToUpper s == s) && !(jsToLower s == s)

/-- modifierKeypress of the source: the modifier byte is a char "1"..="9",
offset by 49 so it can be bitmasked; bit0 shift, bit1 alt, bit2 ctrl, bit3
meta, and `modifiers === 0` also sets meta.  JS subtraction can go negative,
and JS bitwise operators then act on the 32-bit two's complement, hence the
`+ 2 ^ 32` modulo `2 ^ 32`; an undefined modifier byte gives NaN, whose
bit tests and `=== 0` test are all false. -/
def modifierKeypress (key : String) (modByte : Option Nat) : KeyEvent :=
  match modByte with
  | none => { key := key }
  | some b =>
    let m := (b + 2 ^ 32 - 49) % 2 ^ 32
    { key := key
      meta := (m == 0) || m.testBit 3
      shift := m.testBit 0
      alt := m.testBit 1
      ctrl := m.testBit 2 }

/-- The source's `meta` const: "\x18@s" at the start signifies pressed meta key. -/
def legacyMeta (buffer : List Nat) : Bool :=
  idxEq buffer 0 24 && idxEq buffer 1 64 && idxEq buffer 2 115

/-- The source's `alt` const: "\x1b" right after the meta prefix, or "\x1b"
leading a buffer of more than one byte. -/
def legacyAlt (buffer : List Nat) : Bool :=
  (legacyMeta buffer && idxEq buffer 3 27) ||
  (decide (1 < buffer.length) && idxEq buffer 0 27)

/-- The source's `startPos` const: bytes taken by the meta and alt prefixes. -/
def legacyStartPos (buffer : List Nat) : Nat :=
  (if legacyAlt buffer then 1 else 0) + (if legacyMeta buffer then 3 else 0)

/-- The source's `codePoints` const: the number of leading 1s in the first
byte tells how many bytes the character occupies. -/
def utf8CodePoints (charByte : Nat) : Nat :=
  if charByte &&& 0xf0 = 0xf0 then 4
  else if charByte &&& 0xe0 = 0xe0 then 3
  else if charByte &&& 0xc0 = 0xc0 then 2
  else 1

/-- decodeXTermUtf8Key of the source, returning the primary event and the
consumed length that the source hands to maybeMultiple.  The two UTF-8
paths of the source return their event directly: the "definitely multiple"
path appends the recursively decoded tail itself (consumed length
startPos + codePoints), and the "definitely singular" path consumes the
whole buffer; both behaviours coincide with routing the same pair through
the splitter. -/
def decodeXTermUtf8Key (buffer : List Nat) : Option (KeyEvent × Nat) :=
  match buffer[legacyStartPos buffer]? with
  | none => none
  | some charByte =>
    -- "!"..="@" | "["..="~"
    if (33 ≤ charByte ∧ charByte ≤ 64) ∨ (91 ≤ charByte ∧ charByte ≤ 126) then
      some ({ key := fromCharCode charByte, meta := legacyMeta buffer, alt := legacyAlt buffer }, legacyStartPos buffer + 1)
    -- "A"..="Z"
    else if 65 ≤ charByte ∧ charByte ≤ 90 then
      some ({ key := fromCharCode charByte, shift := true, meta := legacyMeta buffer, alt := legacyAlt buffer }, legacyStartPos buffer + 1)
    -- "\x00"
    else if charByte = 0 then
      some ({ key := "space", ctrl := true, meta := legacyMeta buffer, alt := legacyAlt buffer }, legacyStartPos buffer + 1)
    -- " "
    else if charByte = 32 then
      some ({ key := "space", meta := legacyMeta buffer, alt := legacyAlt buffer }, legacyStartPos buffer + 1)
    -- "\n": Ctrl+J sends "\n" instead of "\r"
    else if charByte = 10 then
      some ({ key := "j", ctrl := true, meta := legacyMeta buffer, alt := legacyAlt buffer }, legacyStartPos buffer + 1)
    -- "\r"
    else if charByte = 13 then
      some ({ key := "return", meta := legacyMeta buffer, alt := legacyAlt buffer }, legacyStartPos buffer + 1)
    -- "\x1b"
    else if charByte = 27 then
      some ({ key := "escape", meta := legacyMeta buffer, alt := legacyAlt buffer }, legacyStartPos buffer + 1)
    -- "\b", "\x7f"
    else if charByte = 8 ∨ charByte = 127 then
      some ({ key := "backspace", meta := legacyMeta buffer, alt := legacyAlt buffer }, legacyStartPos buffer + 1)
    -- "\t"
    else if charByte = 9 then
      some ({ key := "tab", meta := legacyMeta buffer, alt := legacyAlt buffer }, legacyStartPos buffer + 1)
    -- ctrl + "a"..="z": charcode offset by 96
    else if 1 ≤ charByte ∧ charByte ≤ 26 then
      some ({ key := fromCharCode (charByte + 96), ctrl := true, meta := legacyMeta buffer, alt := legacyAlt buffer },
            legacyStartPos buffer + 1)
    else
      -- Buffer has been cut
      if buffer.length < utf8CodePoints charByte then none
      -- Definitely multiple characters: the character is decoded from the
      -- slice of codePoints bytes starting at startPos
      else if legacyStartPos buffer + utf8CodePoints charByte < buffer.length then
        some ({ key := utf8DecodeString ((buffer.drop (legacyStartPos buffer)).take (utf8CodePoints charByte)),
                shift := jsUpperShift (utf8DecodeString ((buffer.drop (legacyStartPos buffer)).take (utf8CodePoints charByte))),
                meta := legacyMeta buffer, alt := legacyAlt buffer },
              legacyStartPos buffer + utf8CodePoints charByte)
      -- Definitely singular character: the source decodes the whole buffer here
      else
        some ({ key := utf8DecodeString buffer,
                shift := jsUpperShift (utf8DecodeString buffer),
                meta := legacyMeta buffer, alt := legacyAlt buffer },
              buffer.length)

/-- decodeXTermSS3FunctionKeys of the source (ESC O prefix), returning the
primary event and the consumed length handed to maybeMultiple. -/
def decodeXTermSS3FunctionKeys (buffer : List Nat) : Option (KeyEvent × Nat) :=
  -- Shift + Return produces this code for some reason
  if idxEq buffer 2 77 then
    some ({ key := "return", shift := true }, 3)
  -- If F key is encoded at the third position then it has no modifiers
  else if idxGt buffer 2 79 then
    some (keyEvent (fString (idxSub buffer 2 79)), 3)
  else if buffer.length < 4 then none
  else some (modifierKeypress (fString (idxSub buffer 3 79)) buffer[2]?, 4)

/-- The tail of the arrow/home/end branch of decodeXTermCSIFunctionKeys:
with modifiers the event's flags come from buffer[4] and six bytes are
consumed, otherwise three. -/
def csiArrowFinish (buffer : List Nat) (hasModifiers : Bool) (key : String) :
    Option (KeyEvent × Nat) :=
  bif hasModifiers then some (modifierKeypress key buffer[4]?, 6)
  else some (keyEvent key, 3)

/-- The tail of the insert/delete/pageup/pagedown branch of
decodeXTermCSIFunctionKeys. -/
def csiTildeFinish (buffer : List Nat) (key : String) : Option (KeyEvent × Nat) :=
  -- If 4th character is a semicolon (";"), then it encodes modifiers
  bif idxEq buffer 3 59 then some (modifierKeypress key buffer[4]?, 6)
  else some (keyEvent key, 4)

/-- The irregular F5..F12 function-key number of the source (only consulted
under the guard that buffer[2] is '1' or '2'): for '1' the number is
buffer[3]-'0' decremented when above 5, for '2' it is buffer[3]-'0'+9
decremented when above 10. -/
def csiIrregularFKey (buffer : List Nat) : Option Int :=
  if idxEq buffer 2 49 then
    (idxSub buffer 3 48).map (fun n => if 5 < n then n - 1 else n)
  else
    -- We are starting from 0 and its F9, so we add 9
    (idxSub buffer 3 39).map (fun n => if 10 < n then n - 1 else n)

/-- decodeXTermCSIFunctionKeys of the source (ESC [ prefix), returning the
primary event and the consumed length handed to maybeMultiple. -/
def decodeXTermCSIFunctionKeys (buffer : List Nat) : Option (KeyEvent × Nat) :=
  -- Home | End | Shift+Tab | Arrows
  if (idxEq buffer 2 90 || (idxGe buffer 2 65 && idxLe buffer 2 72)) ||
     (idxEq buffer 3 59 && (idxGe buffer 5 65 && idxLe buffer 5 72)) then
    -- If fourth character is a semicolon (";") then it has encoded modifiers
    match buffer[bif idxEq buffer 3 59 then 5 else 2]? with
    | some 65 => csiArrowFinish buffer (idxEq buffer 3 59) "up"
    | some 66 => csiArrowFinish buffer (idxEq buffer 3 59) "down"
    | some 67 => csiArrowFinish buffer (idxEq buffer 3 59) "right"
    | some 68 => csiArrowFinish buffer (idxEq buffer 3 59) "left"
    | some 70 => csiArrowFinish buffer (idxEq buffer 3 59) "end"
    | some 72 => csiArrowFinish buffer (idxEq buffer 3 59) "home"
    | some 90 => some ({ key := "tab", shift := true }, 3)
    | _ => none
  -- Insert | Delete | PageUp | PageDown
  else if idxEq buffer 3 126 || (idxEq buffer 3 59 && idxEq buffer 5 126) then
    match buffer[2]? with
    | some 50 => csiTildeFinish buffer "insert"
    | some 51 => csiTildeFinish buffer "delete"
    | some 53 => csiTildeFinish buffer "pageup"
    | some 54 => csiTildeFinish buffer "pagedown"
    | _ => none
  -- F1..=F4 (without modifiers), e.g. "\x1b[P"
  else if !(idxEq buffer 3 59) && nanGt (idxSub buffer 2 79) 0 && nanLt (idxSub buffer 2 79) 5 then
    some (keyEvent (fString (idxSub buffer 2 79)), 3)
  -- To decode F1..=F12 key events later on we need at least 6 characters
  else if buffer.length < 5 then none
  -- F1..=F4 (with modifiers), e.g. "\x1b[1;1P"
  else if nanGt (idxSub buffer 5 79) 0 && nanLt (idxSub buffer 5 79) 5 then
    some (modifierKeypress (fString (idxSub buffer 5 79)) buffer[4]?, 6)
  -- F5..=F12: the irregular numeric scheme (the encoding skips 16 and 22)
  else if idxEq buffer 2 49 || idxEq buffer 2 50 then
    -- If 5th character is a semicolon (";"), then it encodes modifiers
    if idxEq buffer 4 59 then
      -- Invalid or incomplete sequence, missing tilde ending
      if !(idxEq buffer 6 126) then none
      else some (modifierKeypress (fString (csiIrregularFKey buffer)) buffer[5]?, 7)
    -- Invalid or incomplete sequence, missing tilde ending
    else if !(idxEq buffer 4 126) then none
    else some (keyEvent (fString (csiIrregularFKey buffer)), 5)
  -- Invalid function key sequence, possibly incomplete sequence of a different key
  else none

/-- Modelled from the spec: the Dispatcher of the repository's decode.ts,
which is not among the provided sources (part_000 imports decodeBuffer and
maybeMultiple from it).  Routing: ESC '[' with more than one byte goes to
the CSI decoder, ESC 'O' to the SS3 decoder, everything else to the
Legacy/UTF-8 decoder. -/
def dispatch (buffer : List Nat) : Option (KeyEvent × Nat) :=
  if decide (1 < buffer.length) && idxEq buffer 0 27 && idxEq buffer 1 91 then
    decodeXTermCSIFunctionKeys buffer
  else if idxEq buffer 0 27 && idxEq buffer 1 79 then
    decodeXTermSS3FunctionKeys buffer
  else
    decodeXTermUtf8Key buffer

/-- Modelled from the spec: decodeBuffer of the missing decode.ts combined
with maybeMultiple, its Multi-Event Splitter.  When the branch consumed
fewer bytes than the buffer holds, the tail is decoded recursively and the
events are concatenated in arrival order; a failing tail leaves just the
primary event.  The source collapses Incomplete and Unrecognized into one
null-like signal; `none` models that signal.  `fuel` bounds the recursion
depth; `decodeBuffer` supplies `buffer.length`, which suffices because
every branch consumes at least one byte. -/
def decodeBufferAux (fuel : Nat) (buffer : List Nat) : Option (List KeyEvent) :=
  match dispatch buffer with
  | none => none
  | some (ev, consumed) =>
    if consumed < buffer.length then
      match fuel with
      | 0 => some [ev]
      | fuel' + 1 =>
        match decodeBufferAux fuel' (buffer.drop consumed) with
        | none => some [ev]
        | some events => some (ev :: events)
    else some [ev]

/-- The decoder's entry point: one call per raw chunk. -/
def decodeBuffer (buffer : List Nat) : Option (List KeyEvent) :=
  decodeBufferAux buffer.length buffer

/-- The internal split points of a successful multi-event decode: offset c
is listed when the first branch consumes c bytes of a longer buffer and the
remaining tail decodes successfully, and so on recursively.  These are the
sub-sequence boundaries at which the Multi-Event Splitter cuts the buffer. -/
def chunkBoundariesAux (fuel : Nat) (buffer : List Nat) : List Nat :=
  match dispatch buffer with
  | none => []
  | some (_, consumed) =>
    if consumed < buffer.length then
      match fuel with
      | 0 => []
      | fuel' + 1 =>
        match decodeBufferAux fuel' (buffer.drop consumed) with
        | none => []
        | some _ => consumed :: (chunkBoundariesAux fuel' (buffer.drop consumed)).map (consumed + ·)
    else []

/-- The sub-sequence boundaries of a buffer (strictly between 0 and the
buffer's length). -/
def chunkBoundaries (buffer : List Nat) : List Nat :=
  chunkBoundariesAux buffer.length buffer

/-- The fixed vocabulary of named keys from the spec's data model. -/
def namedKeys : List String :=
  ["space", "return", "escape", "backspace", "tab", "up", "down", "left", "right",
   "home", "end", "insert", "delete", "pageup", "pagedown",
   "f1", "f2", "f3", "f4", "f5", "f6", "f7", "f8", "f9", "f10", "f11", "f12"]

/-- The key-vocabulary invariant claimed by the spec: a key is a single
character or drawn from the fixed vocabulary of named keys. -/
def vocabKey (s : String) : Prop := s.length = 1 ∨ s ∈ namedKeys

/-! ### Basic facts about the index and string helpers -/

theorem getq_lt {l : List Nat} {i v : Nat} (h : l[i]? = some v) : i < l.length := by
  by_contra hh
  rw [List.getElem?_eq_none (Nat.le_of_not_lt hh)] at h
  exact Option.noConfusion h

theorem idxEq_some {buffer : List Nat} {i v : Nat} (h : idxEq buffer i v = true) :
    buffer[i]? = some v := by
  simpa [idxEq] using h

theorem idxGe_some {buffer : List Nat} {i v : Nat} (h : idxGe buffer i v = true) :
    ∃ b, buffer[i]? = some b ∧ v ≤ b := by
  unfold idxGe at h
  rcases hb : buffer[i]? with _ | b <;> rw [hb] at h
  · exact Bool.noConfusion h
  · exact ⟨b, rfl, of_decide_eq_true h⟩

theorem idxGt_some {buffer : List Nat} {i v : Nat} (h : idxGt buffer i v = true) :
    ∃ b, buffer[i]? = some b ∧ v < b := by
  unfold idxGt at h
  rcases hb : buffer[i]? with _ | b <;> rw [hb] at h
  · exact Bool.noConfusion h
  · exact ⟨b, rfl, of_decide_eq_true h⟩

theorem nanGt_some {a : Option Int} {k : Int} (h : nanGt a k = true) :
    ∃ v, a = some v ∧ k < v := by
  unfold nanGt at h
  rcases ha : a with _ | v <;> rw [ha] at h
  · exact Bool.noConfusion h
  · exact ⟨v, rfl, of_decide_eq_true h⟩

theorem idxSub_some {buffer : List Nat} {i : Nat} {k v : Int}
    (h : idxSub buffer i k = some v) : ∃ b, buffer[i]? = some b := by
  unfold idxSub at h
  rcases hb : buffer[i]? with _ | b <;> rw [hb] at h
  · exact Option.noConfusion h
  · exact ⟨b, rfl⟩

theorem stringMk_ne_empty {l : List Char} (h : l ≠ []) : String.mk l ≠ "" := by
  intro he
  exact h (congrArg String.data he)

theorem fromCharCode_ne_empty (n : Nat) : fromCharCode n ≠ "" :=
  stringMk_ne_empty (by simp)

theorem fString_ne_empty (a : Option Int) : fString a ≠ "" := by
  intro hc
  unfold fString at hc
  have hl := congrArg String.length hc
  rw [String.length_append] at hl
  have h1 : "f".length = 1 := rfl
  have h0 : "".length = 0 := rfl
  omega

theorem modifierKeypress_key (key : String) (m : Option Nat) :
    (modifierKeypress key m).key = key := by
  cases m <;> rfl

/-! ### The WHATWG decoder never produces an empty string from nonempty input -/

theorem utf8StartByte_cases (b : Nat) :
    (utf8StartByte b).1 ≠ [] ∨ (utf8StartByte b).2.2.1 ≠ 0 := by
  unfold utf8StartByte
  split_ifs <;> simp

theorem utf8DecodeLoop_ne_nil :
    ∀ (bytes : List Nat) (cp seen needed lo hi : Nat), bytes ≠ [] ∨ needed ≠ 0 →
      utf8DecodeLoop bytes cp seen needed lo hi ≠ [] := by
  intro bytes
  induction bytes with
  | nil =>
    intro cp seen needed lo hi h
    rcases h with h | h
    · exact absurd rfl h
    · simp [utf8DecodeLoop, h]
  | cons b rest ih =>
    intro cp seen needed lo hi _
    simp only [utf8DecodeLoop]
    split_ifs with h0 hcont hfin
    · rcases utf8StartByte_cases b with hem | hne
      · intro hc
        rw [List.append_eq_nil] at hc
        exact hem hc.1
      · intro hc
        rw [List.append_eq_nil] at hc
        exact ih _ 0 _ _ _ (Or.inr hne) hc.2
    · exact List.cons_ne_nil _ _
    · exact ih _ _ _ _ _ (Or.inr h0)
    · exact List.cons_ne_nil _ _

theorem utf8DecodeString_ne_empty {bytes : List Nat} (h : bytes ≠ []) :
    utf8DecodeString bytes ≠ "" := by
  unfold utf8DecodeString
  apply stringMk_ne_empty
  simp only [ne_eq, List.map_eq_nil_iff]
  exact utf8DecodeLoop_ne_nil bytes 0 0 0 0x80 0xBF (Or.inl h)

theorem utf8CodePoints_pos (b : Nat) : 1 ≤ utf8CodePoints b := by
  unfold utf8CodePoints
  split_ifs <;> omega


/-! ### Every decoding branch hands the splitter a consumed length between 1
and the buffer length, and an event whose key is nonempty. -/

theorem pairEq {X ev : KeyEvent} {n c : Nat}
    (h : (some (X, n) : Option (KeyEvent × Nat)) = some (ev, c)) : X = ev ∧ n = c := by
  simp only [Option.some.injEq, Prod.mk.injEq] at h
  exact h

theorem decodeXTermUtf8Key_spec {buffer : List Nat} {ev : KeyEvent} {c : Nat}
    (h : decodeXTermUtf8Key buffer = some (ev, c)) :
    (1 ≤ c ∧ c ≤ buffer.length) ∧ ev.key ≠ "" := by
  unfold decodeXTermUtf8Key at h
  split at h
  next => exact Option.noConfusion h
  next charByte heq =>
    have hsp : legacyStartPos buffer < buffer.length := getq_lt heq
    have hcp : 1 ≤ utf8CodePoints charByte := utf8CodePoints_pos charByte
    by_cases h1 : (33 ≤ charByte ∧ charByte ≤ 64) ∨ (91 ≤ charByte ∧ charByte ≤ 126)
    · rw [if_pos h1] at h
      obtain ⟨rfl, rfl⟩ := pairEq h
      exact ⟨⟨by omega, by omega⟩, fromCharCode_ne_empty _⟩
    · rw [if_neg h1] at h
      by_cases h2 : 65 ≤ charByte ∧ charByte ≤ 90
      · rw [if_pos h2] at h
        obtain ⟨rfl, rfl⟩ := pairEq h
        exact ⟨⟨by omega, by omega⟩, fromCharCode_ne_empty _⟩
      · rw [if_neg h2] at h
        by_cases h3 : charByte = 0
        · rw [if_pos h3] at h
          obtain ⟨rfl, rfl⟩ := pairEq h
          refine ⟨⟨by omega, by omega⟩, ?_⟩
          show "space" ≠ ""
          decide
        · rw [if_neg h3] at h
          by_cases h4 : charByte = 32
          · rw [if_pos h4] at h
            obtain ⟨rfl, rfl⟩ := pairEq h
            refine ⟨⟨by omega, by omega⟩, ?_⟩
            show "space" ≠ ""
            decide
          · rw [if_neg h4] at h
            by_cases h5 : charByte = 10
            · rw [if_pos h5] at h
              obtain ⟨rfl, rfl⟩ := pairEq h
              refine ⟨⟨by omega, by omega⟩, ?_⟩
              show "j" ≠ ""
              decide
            · rw [if_neg h5] at h
              by_cases h6 : charByte = 13
              · rw [if_pos h6] at h
                obtain ⟨rfl, rfl⟩ := pairEq h
                refine ⟨⟨by omega, by omega⟩, ?_⟩
                show "return" ≠ ""
                decide
              · rw [if_neg h6] at h
                by_cases h7 : charByte = 27
                · rw [if_pos h7] at h
                  obtain ⟨rfl, rfl⟩ := pairEq h
                  refine ⟨⟨by omega, by omega⟩, ?_⟩
                  show "escape" ≠ ""
                  decide
                · rw [if_neg h7] at h
                  by_cases h8 : charByte = 8 ∨ charByte = 127
                  · rw [if_pos h8] at h
                    obtain ⟨rfl, rfl⟩ := pairEq h
                    refine ⟨⟨by omega, by omega⟩, ?_⟩
                    show "backspace" ≠ ""
                    decide
                  · rw [if_neg h8] at h
                    by_cases h9 : charByte = 9
                    · rw [if_pos h9] at h
                      obtain ⟨rfl, rfl⟩ := pairEq h
                      refine ⟨⟨by omega, by omega⟩, ?_⟩
                      show "tab" ≠ ""
                      decide
                    · rw [if_neg h9] at h
                      by_cases h10 : 1 ≤ charByte ∧ charByte ≤ 26
                      · rw [if_pos h10] at h
                        obtain ⟨rfl, rfl⟩ := pairEq h
                        exact ⟨⟨by omega, by omega⟩, fromCharCode_ne_empty _⟩
                      · rw [if_neg h10] at h
                        by_cases h11 : buffer.length < utf8CodePoints charByte
                        · rw [if_pos h11] at h
                          exact Option.noConfusion h
                        · rw [if_neg h11] at h
                          by_cases h12 : legacyStartPos buffer + utf8CodePoints charByte < buffer.length
                          · rw [if_pos h12] at h
                            obtain ⟨rfl, rfl⟩ := pairEq h
                            refine ⟨⟨by omega, by omega⟩, ?_⟩
                            apply utf8DecodeString_ne_empty
                            intro hnil
                            have hlen := congrArg List.length hnil
                            simp only [List.length_take, List.length_drop, List.length_nil] at hlen
                            omega
                          · rw [if_neg h12] at h
                            obtain ⟨rfl, rfl⟩ := pairEq h
                            refine ⟨⟨by omega, Nat.le_refl _⟩, ?_⟩
                            apply utf8DecodeString_ne_empty
                            intro hnil
                            rw [hnil] at hsp
                            simp at hsp

theorem decodeXTermSS3FunctionKeys_spec {buffer : List Nat} {ev : KeyEvent} {c : Nat}
    (h : decodeXTermSS3FunctionKeys buffer = some (ev, c)) :
    (1 ≤ c ∧ c ≤ buffer.length) ∧ ev.key ≠ "" := by
  unfold decodeXTermSS3FunctionKeys at h
  split_ifs at h with h1 h2 h3
  · have := getq_lt (idxEq_some h1)
    obtain ⟨rfl, rfl⟩ := pairEq h
    exact ⟨⟨by omega, by omega⟩, by decide⟩
  · obtain ⟨b2, hb2, -⟩ := idxGt_some h2
    have := getq_lt hb2
    obtain ⟨rfl, rfl⟩ := pairEq h
    exact ⟨⟨by omega, by omega⟩, fString_ne_empty _⟩
  · obtain ⟨rfl, rfl⟩ := pairEq h
    refine ⟨⟨by omega, by omega⟩, ?_⟩
    rw [modifierKeypress_key]
    exact fString_ne_empty _

theorem csiArrowFinish_spec {buffer : List Nat} {hm : Bool} {key : String}
    {ev : KeyEvent} {c : Nat} (h : csiArrowFinish buffer hm key = some (ev, c))
    (hlen : (bif hm then 5 else 2) < buffer.length) (hk : key ≠ "") :
    (1 ≤ c ∧ c ≤ buffer.length) ∧ ev.key ≠ "" := by
  unfold csiArrowFinish at h
  cases hm with
  | true =>
    rw [Bool.cond_true] at h hlen
    obtain ⟨rfl, rfl⟩ := pairEq h
    refine ⟨⟨by omega, by omega⟩, ?_⟩
    rw [modifierKeypress_key]
    exact hk
  | false =>
    rw [Bool.cond_false] at h hlen
    obtain ⟨rfl, rfl⟩ := pairEq h
    exact ⟨⟨by omega, by omega⟩, hk⟩

theorem csiTildeFinish_spec {buffer : List Nat} {key : String} {ev : KeyEvent} {c : Nat}
    (h : csiTildeFinish buffer key = some (ev, c))
    (hins : (idxEq buffer 3 126 || (idxEq buffer 3 59 && idxEq buffer 5 126)) = true)
    (hk : key ≠ "") : (1 ≤ c ∧ c ≤ buffer.length) ∧ ev.key ≠ "" := by
  unfold csiTildeFinish at h
  rw [Bool.or_eq_true, Bool.and_eq_true] at hins
  cases hm : idxEq buffer 3 59 with
  | true =>
    rw [hm, Bool.cond_true] at h
    rcases hins with h126 | ⟨-, h5⟩
    · have e1 := idxEq_some h126
      have e2 := idxEq_some hm
      rw [e2] at e1
      exact absurd (Option.some.inj e1) (by decide)
    · have := getq_lt (idxEq_some h5)
      obtain ⟨rfl, rfl⟩ := pairEq h
      refine ⟨⟨by omega, by omega⟩, ?_⟩
      rw [modifierKeypress_key]
      exact hk
  | false =>
    rw [hm, Bool.cond_false] at h
    rcases hins with h126 | ⟨h59, -⟩
    · have := getq_lt (idxEq_some h126)
      obtain ⟨rfl, rfl⟩ := pairEq h
      exact ⟨⟨by omega, by omega⟩, hk⟩
    · rw [hm] at h59
      exact Bool.noConfusion h59

theorem decodeXTermCSIFunctionKeys_spec {buffer : List Nat} {ev : KeyEvent} {c : Nat}
    (h : decodeXTermCSIFunctionKeys buffer = some (ev, c)) :
    (1 ≤ c ∧ c ≤ buffer.length) ∧ ev.key ≠ "" := by
  unfold decodeXTermCSIFunctionKeys at h
  split_ifs at h with harr hins hf14 hlen hf14m hirr hsemi hno6 hno4
  · -- Home | End | Shift+Tab | Arrows
    split at h
    case _ heq => exact csiArrowFinish_spec h (getq_lt heq) (by decide)
    case _ heq => exact csiArrowFinish_spec h (getq_lt heq) (by decide)
    case _ heq => exact csiArrowFinish_spec h (getq_lt heq) (by decide)
    case _ heq => exact csiArrowFinish_spec h (getq_lt heq) (by decide)
    case _ heq => exact csiArrowFinish_spec h (getq_lt heq) (by decide)
    case _ heq => exact csiArrowFinish_spec h (getq_lt heq) (by decide)
    case _ heq =>
      have hx := getq_lt heq
      have hge : 3 ≤ buffer.length := by
        cases hmm : idxEq buffer 3 59 <;> rw [hmm] at hx
        · rw [Bool.cond_false] at hx
          omega
        · rw [Bool.cond_true] at hx
          omega
      obtain ⟨rfl, rfl⟩ := pairEq h
      exact ⟨⟨by omega, by omega⟩, by decide⟩
    case _ => exact Option.noConfusion h
  · -- Insert | Delete | PageUp | PageDown
    split at h
    · exact csiTildeFinish_spec h hins (by decide)
    · exact csiTildeFinish_spec h hins (by decide)
    · exact csiTildeFinish_spec h hins (by decide)
    · exact csiTildeFinish_spec h hins (by decide)
    · exact Option.noConfusion h
  · -- F1..=F4 without modifiers
    rw [Bool.and_eq_true, Bool.and_eq_true] at hf14
    obtain ⟨⟨-, hgt⟩, -⟩ := hf14
    obtain ⟨v, hsub, -⟩ := nanGt_some hgt
    obtain ⟨b2, hb2⟩ := idxSub_some hsub
    have := getq_lt hb2
    obtain ⟨rfl, rfl⟩ := pairEq h
    exact ⟨⟨by omega, by omega⟩, fString_ne_empty _⟩
  · -- F1..=F4 with modifiers
    rw [Bool.and_eq_true] at hf14m
    obtain ⟨hgt, -⟩ := hf14m
    obtain ⟨v, hsub, -⟩ := nanGt_some hgt
    obtain ⟨b5, hb5⟩ := idxSub_some hsub
    have := getq_lt hb5
    obtain ⟨rfl, rfl⟩ := pairEq h
    refine ⟨⟨by omega, by omega⟩, ?_⟩
    rw [modifierKeypress_key]
    exact fString_ne_empty _
  · -- F5..=F12 with modifiers, consumed 7
    rw [Bool.not_eq_true', Bool.not_eq_false] at hno6
    have := getq_lt (idxEq_some hno6)
    obtain ⟨rfl, rfl⟩ := pairEq h
    refine ⟨⟨by omega, by omega⟩, ?_⟩
    rw [modifierKeypress_key]
    exact fString_ne_empty _
  · -- F5..=F12 without modifiers, consumed 5
    rw [Bool.not_eq_true', Bool.not_eq_false] at hno4
    have := getq_lt (idxEq_some hno4)
    obtain ⟨rfl, rfl⟩ := pairEq h
    exact ⟨⟨by omega, by omega⟩, fString_ne_empty _⟩

theorem dispatch_spec {buffer : List Nat} {ev : KeyEvent} {c : Nat}
    (h : dispatch buffer = some (ev, c)) :
    (1 ≤ c ∧ c ≤ buffer.length) ∧ ev.key ≠ "" := by
  unfold dispatch at h
  split_ifs at h
  · exact decodeXTermCSIFunctionKeys_spec h
  · exact decodeXTermSS3FunctionKeys_spec h
  · exact decodeXTermUtf8Key_spec h

/-! ### The splitter recursion: equations, fuel irrelevance, result shape -/

theorem dispatch_nil : dispatch [] = none := rfl

theorem decodeBufferAux_nil (fuel : Nat) : decodeBufferAux fuel [] = none := by
  unfold decodeBufferAux
  rw [dispatch_nil]

theorem chunkBoundariesAux_nil (fuel : Nat) : chunkBoundariesAux fuel [] = [] := by
  unfold chunkBoundariesAux
  rw [dispatch_nil]

theorem decodeBufferAux_eq (fuel : Nat) (buffer : List Nat) :
    decodeBufferAux (fuel + 1) buffer =
      match dispatch buffer with
      | none => none
      | some (ev, consumed) =>
        if consumed < buffer.length then
          match decodeBufferAux fuel (buffer.drop consumed) with
          | none => some [ev]
          | some events => some (ev :: events)
        else some [ev] := by
  conv_lhs => unfold decodeBufferAux

theorem decodeBufferAux_zero_eq (buffer : List Nat) :
    decodeBufferAux 0 buffer =
      match dispatch buffer with
      | none => none
      | some (ev, _) => some [ev] := by
  unfold decodeBufferAux
  cases dispatch buffer with
  | none => rfl
  | some p =>
    obtain ⟨ev, c⟩ := p
    dsimp only
    by_cases hc : c < buffer.length
    · rw [if_pos hc]
    · rw [if_neg hc]

theorem chunkBoundariesAux_eq (fuel : Nat) (buffer : List Nat) :
    chunkBoundariesAux (fuel + 1) buffer =
      match dispatch buffer with
      | none => []
      | some (_, consumed) =>
        if consumed < buffer.length then
          match decodeBufferAux fuel (buffer.drop consumed) with
          | none => []
          | some _ =>
            consumed :: (chunkBoundariesAux fuel (buffer.drop consumed)).map (consumed + ·)
        else [] := by
  conv_lhs => unfold chunkBoundariesAux

theorem decodeBufferAux_shape (fuel : Nat) (buffer : List Nat) :
    decodeBufferAux fuel buffer = none ∨
    ∃ e es, decodeBufferAux fuel buffer = some (e :: es) := by
  cases fuel with
  | zero =>
    rw [decodeBufferAux_zero_eq]
    cases hd : dispatch buffer with
    | none => exact Or.inl rfl
    | some p =>
      obtain ⟨e, c⟩ := p
      exact Or.inr ⟨e, [], rfl⟩
  | succ fuel' =>
    rw [decodeBufferAux_eq]
    cases hd : dispatch buffer with
    | none => exact Or.inl rfl
    | some p =>
      obtain ⟨e, c⟩ := p
      dsimp only
      by_cases hc : c < buffer.length
      · rw [if_pos hc]
        cases hr : decodeBufferAux fuel' (buffer.drop c) with
        | none => exact Or.inr ⟨e, [], rfl⟩
        | some es => exact Or.inr ⟨e, es, rfl⟩
      · rw [if_neg hc]
        exact Or.inr ⟨e, [], rfl⟩

theorem decodeBufferAux_fuel : ∀ (f1 f2 : Nat) (buffer : List Nat),
    buffer.length ≤ f1 → buffer.length ≤ f2 →
    decodeBufferAux f1 buffer = decodeBufferAux f2 buffer := by
  intro f1
  induction f1 with
  | zero =>
    intro f2 buffer h1 _
    have hb : buffer = [] := List.eq_nil_of_length_eq_zero (Nat.le_zero.mp h1)
    subst hb
    rw [decodeBufferAux_nil, decodeBufferAux_nil]
  | succ f1' ih =>
    intro f2 buffer h1 h2
    cases f2 with
    | zero =>
      have hb : buffer = [] := List.eq_nil_of_length_eq_zero (Nat.le_zero.mp h2)
      subst hb
      rw [decodeBufferAux_nil, decodeBufferAux_nil]
    | succ f2' =>
      rw [decodeBufferAux_eq, decodeBufferAux_eq]
      cases hd : dispatch buffer with
      | none => rfl
      | some p =>
        obtain ⟨ev, consumed⟩ := p
        obtain ⟨⟨hcpos, hcle⟩, -⟩ := dispatch_spec hd
        dsimp only
        by_cases hc : consumed < buffer.length
        · rw [if_pos hc, if_pos hc]
          rw [ih f2' (buffer.drop consumed) (by rw [List.length_drop]; omega)
                (by rw [List.length_drop]; omega)]
        · rw [if_neg hc, if_neg hc]

theorem decodeBufferAux_keys : ∀ (fuel : Nat) (buffer : List Nat) (events : List KeyEvent),
    decodeBufferAux fuel buffer = some events → ∀ ev ∈ events, ev.key ≠ "" := by
  intro fuel
  induction fuel with
  | zero =>
    intro buffer events h
    rw [decodeBufferAux_zero_eq] at h
    cases hd : dispatch buffer with
    | none =>
      rw [hd] at h
      exact Option.noConfusion h
    | some p =>
      obtain ⟨e, c⟩ := p
      rw [hd] at h
      obtain ⟨-, hk⟩ := dispatch_spec hd
      dsimp only at h
      obtain rfl : [e] = events := Option.some.inj h
      intro ev hmem
      rw [List.mem_singleton] at hmem
      subst hmem
      exact hk
  | succ fuel' ih =>
    intro buffer events h
    rw [decodeBufferAux_eq] at h
    cases hd : dispatch buffer with
    | none =>
      rw [hd] at h
      exact Option.noConfusion h
    | some p =>
      obtain ⟨e, c⟩ := p
      rw [hd] at h
      obtain ⟨-, hk⟩ := dispatch_spec hd
      dsimp only at h
      by_cases hc : c < buffer.length
      · rw [if_pos hc] at h
        cases hr : decodeBufferAux fuel' (buffer.drop c) with
        | none =>
          rw [hr] at h
          dsimp only at h
          obtain rfl : [e] = events := Option.some.inj h
          intro ev hmem
          rw [List.mem_singleton] at hmem
          subst hmem
          exact hk
        | some es =>
          rw [hr] at h
          dsimp only at h
          obtain rfl : e :: es = events := Option.some.inj h
          intro ev hmem
          rcases List.mem_cons.mp hmem with rfl | hmem'
          · exact hk
          · exact ih (buffer.drop c) es hr ev hmem'
      · rw [if_neg hc] at h
        obtain rfl : [e] = events := Option.some.inj h
        intro ev hmem
        rw [List.mem_singleton] at hmem
        subst hmem
        exact hk

theorem decodeBufferAux_boundary :
    ∀ (fuel : Nat) (buffer : List Nat) (events : List KeyEvent) (k : Nat),
    buffer.length ≤ fuel →
    decodeBufferAux fuel buffer = some events →
    k ∈ chunkBoundariesAux fuel buffer →
    ∃ es1 es2, events = es1 ++ es2 ∧ es2 ≠ [] ∧ decodeBuffer (buffer.drop k) = some es2 := by
  intro fuel
  induction fuel with
  | zero =>
    intro buffer events k h1 _ h3
    have hb : buffer = [] := List.eq_nil_of_length_eq_zero (Nat.le_zero.mp h1)
    subst hb
    rw [chunkBoundariesAux_nil] at h3
    exact absurd h3 (List.not_mem_nil k)
  | succ fuel' ih =>
    intro buffer events k h1 h2 h3
    rw [decodeBufferAux_eq] at h2
    rw [chunkBoundariesAux_eq] at h3
    cases hd : dispatch buffer with
    | none =>
      rw [hd] at h2
      exact Option.noConfusion h2
    | some p =>
      obtain ⟨ev, consumed⟩ := p
      rw [hd] at h2 h3
      obtain ⟨⟨hcpos, hcle⟩, -⟩ := dispatch_spec hd
      dsimp only at h2 h3
      by_cases hc : consumed < buffer.length
      · rw [if_pos hc] at h2 h3
        cases hr : decodeBufferAux fuel' (buffer.drop consumed) with
        | none =>
          rw [hr] at h3
          exact absurd h3 (List.not_mem_nil k)
        | some es =>
          rw [hr] at h2 h3
          dsimp only at h2 h3
          obtain rfl : ev :: es = events := Option.some.inj h2
          have hdl : (buffer.drop consumed).length ≤ fuel' := by
            rw [List.length_drop]; omega
          rcases List.mem_cons.mp h3 with hk | hmap
          · subst hk
            refine ⟨[ev], es, rfl, ?_, ?_⟩
            · rcases decodeBufferAux_shape fuel' (buffer.drop k) with hsh | ⟨e', es', hsh⟩
              · rw [hsh] at hr
                exact Option.noConfusion hr
              · rw [hsh] at hr
                obtain rfl : e' :: es' = es := Option.some.inj hr
                exact List.cons_ne_nil e' es'
            · unfold decodeBuffer
              rw [decodeBufferAux_fuel (buffer.drop k).length fuel'
                    (buffer.drop k) (Nat.le_refl _) hdl]
              exact hr
          · obtain ⟨k', hk', rfl⟩ := List.mem_map.mp hmap
            obtain ⟨es1, es2, heq, hne, hdec⟩ := ih (buffer.drop consumed) es k' hdl hr hk'
            refine ⟨ev :: es1, es2, by rw [heq, List.cons_append], hne, ?_⟩
            have hdd : buffer.drop (consumed + k') = (buffer.drop consumed).drop k' := by
              rw [List.drop_drop, Nat.add_comm]
            rw [hdd]
            exact hdec
      · rw [if_neg hc] at h3
        exact absurd h3 (List.not_mem_nil k)

instance vocabKeyDecidable (s : String) : Decidable (vocabKey s) := by
  unfold vocabKey
  infer_instance

/-! ### The claims -/

/-- C1 (amended): decoding is not fully splitting-associative across
sub-sequence boundaries, because branch decoders read lookahead bytes past a
boundary; what holds is the suffix half of the property: for every buffer
that decodes to an event list and every sub-sequence boundary k, decoding
the tail from k alone yields exactly the remaining events (the event list
splits as es1 ++ es2 with the tail decoding to es2); and the buffer of two
back-to-back simple key encodings ['a','b'] yields the two events 'a' then
'b' in that order from a single call. -/
theorem claim_C1 :
    (∀ (buffer : List Nat) (events : List KeyEvent) (k : Nat),
      decodeBuffer buffer = some events → k ∈ chunkBoundaries buffer →
      ∃ es1 es2, events = es1 ++ es2 ∧ es2 ≠ [] ∧
        decodeBuffer (buffer.drop k) = some es2) ∧
    decodeBuffer [97, 98] = some [keyEvent "a", keyEvent "b"] := by
  constructor
  · intro buffer events k h hk
    exact decodeBufferAux_boundary buffer.length buffer events k (Nat.le_refl _) h hk
  · decide

/-- C1 witness: the suffix property applied to ['a','b'] at its boundary 1. -/
theorem claim_C1_witness :
    ∃ es1 es2, ([keyEvent "a", keyEvent "b"] : List KeyEvent) = es1 ++ es2 ∧ es2 ≠ [] ∧
      decodeBuffer (([97, 98] : List Nat).drop 1) = some es2 :=
  claim_C1.1 [97, 98] [keyEvent "a", keyEvent "b"] 1 (by decide) (by decide)

/-- C1 counterexample: the buffer [ESC,'[','Z',';','x','Z'] decodes in one
call to four events with 4 a sub-sequence boundary, yet its first four bytes
alone decode to nothing (the CSI decoder reads buffer[5] once buffer[3] is a
semicolon), so splitting at boundary 4 cannot reproduce the list. -/
theorem claim_C1_counterexample :
    decodeBuffer [27, 91, 90, 59, 120, 90] =
      some [{ key := "tab", shift := true }, keyEvent ";", keyEvent "x",
            { key := "Z", shift := true }] ∧
    4 ∈ chunkBoundaries [27, 91, 90, 59, 120, 90] ∧
    decodeBuffer (([27, 91, 90, 59, 120, 90] : List Nat).take 4) = none := by decide

/-- C2: resolving a digit byte d in '1'..'9' gives numeric = d - '1', and the
event carries shift = bit0, alt = bit1, ctrl = bit2, and meta = (numeric = 0
or bit3), with the key unchanged. -/
theorem claim_C2 (k : String) (d : Nat) (h1 : 49 ≤ d) (h2 : d ≤ 57) :
    modifierKeypress k (some d) =
      { key := k, shift := (d - 49).testBit 0, alt := (d - 49).testBit 1,
        ctrl := (d - 49).testBit 2, meta := (d - 49 == 0) || (d - 49).testBit 3 } := by
  unfold modifierKeypress
  dsimp only
  have hp : (2 : Nat) ^ 32 = 4294967296 := by norm_num
  have hm : (d + 2 ^ 32 - 49) % 2 ^ 32 = d - 49 := by
    rw [hp]
    omega
  rw [hm]

/-- C2 witness: digit '5' (numeric 4) yields ctrl alone. -/
theorem claim_C2_witness :
    modifierKeypress "up" (some 53) =
      { key := "up", shift := false, ctrl := true, meta := false, alt := false } := by
  rw [claim_C2 "up" 53 (by decide) (by decide)]
  decide

/-- C3: the code evaluated at the failing input "\x1bą" = [27,196,133]: the
char byte 0xC4 at startPos 1 needs L = 2 bytes, the buffer length equals
startPos + L, and the produced key is the UTF-8 decoding of the WHOLE buffer
(ESC prefix included), not of the two bytes at startPos, which decode to "ą"
alone (second conjunct).  Third conjunct: for [27,196], which is shorter
than startPos + L, the code still produces an event instead of the
Incomplete signal, because it compares the length against L alone. -/
theorem claim_C3 :
    decodeBuffer [27, 196, 133] =
      some [{ key := String.mk [Char.ofNat 27, Char.ofNat 261], alt := true }] ∧
    utf8DecodeString ((([27, 196, 133] : List Nat).drop 1).take 2) =
      String.mk [Char.ofNat 261] ∧
    decodeBuffer [27, 196] ≠ none := by decide

/-- C4: byte 9 decodes to tab and byte 13 to return, both without ctrl,
while every other byte in [1,26] except 8 and 10 (and those two named cases)
decodes to the lowercase letter chr(b+96) with ctrl set and no other
modifiers. -/
theorem claim_C4 :
    decodeBuffer [9] = some [keyEvent "tab"] ∧
    decodeBuffer [13] = some [keyEvent "return"] ∧
    ∀ b : Nat, b < 27 → 1 ≤ b ∧ b ≠ 8 ∧ b ≠ 9 ∧ b ≠ 10 ∧ b ≠ 13 →
      decodeBuffer [b] = some [{ key := fromCharCode (b + 96), ctrl := true }] := by decide

/-- C4 witness: decode([1]) is ctrl+'a'. -/
theorem claim_C4_witness :
    decodeBuffer [1] = some [{ key := fromCharCode (1 + 96), ctrl := true }] :=
  claim_C4.2.2 1 (by decide) (by decide)

/-- C5: decode([ESC,'[','1',';','5','A']) is a single ctrl+up event, and in
general a buffer matching ESC '[' with a semicolon at index 3 and a
terminator byte at index 5 drawn from the arrow/home/end map resolves the
modifiers from buffer[4] and consumes six bytes. -/
theorem claim_C5 :
    decodeBuffer [27, 91, 49, 59, 53, 65] = some [{ key := "up", ctrl := true }] ∧
    ∀ (buffer : List Nat) (t m4 : Nat) (k : String),
      buffer[0]? = some 27 → buffer[1]? = some 91 → buffer[3]? = some 59 →
      buffer[4]? = some m4 → buffer[5]? = some t →
      (t, k) ∈ [(65, "up"), (66, "down"), (67, "right"), (68, "left"),
                (70, "end"), (72, "home")] →
      dispatch buffer = some (modifierKeypress k (some m4), 6) := by
  constructor
  · decide
  · intro buffer t m4 k h0 h1 h3 h4 h5 hmem
    have hlen1 : 1 < buffer.length := getq_lt h1
    fin_cases hmem <;>
      simp [dispatch, decodeXTermCSIFunctionKeys, csiArrowFinish,
            idxEq, idxGe, idxLe, h0, h1, h3, h4, h5, hlen1]

/-- C5 witness: the general arrow rule applied to the concrete ctrl+up
sequence. -/
theorem claim_C5_witness :
    dispatch [27, 91, 49, 59, 53, 65] = some (modifierKeypress "up" (some 53), 6) :=
  claim_C5.2 [27, 91, 49, 59, 53, 65] 65 53 "up" (by decide) (by decide) (by decide)
    (by decide) (by decide) (by decide)

/-- The side condition of the last part of claim C6: d is a digit byte and
the byte x is one that reaches the irregular F5..F12 branch (it matches no
earlier CSI branch of the tilde form) while being neither '1' nor '2'. -/
def csiOtherByte (x d : Nat) : Prop :=
  48 ≤ d ∧ ¬(65 ≤ x ∧ x ≤ 72) ∧ x ≠ 90 ∧ ¬(80 ≤ x ∧ x ≤ 83) ∧ x ≠ 49 ∧ x ≠ 50

instance csiOtherByteDecidable (x d : Nat) : Decidable (csiOtherByte x d) := by
  unfold csiOtherByte
  infer_instance

set_option maxRecDepth 100000 in
set_option maxHeartbeats 4000000 in
/-- C6: in the unmodified tilde form ESC '[' x d '~' with a digit byte d,
x = '1' gives function number d - '0' decremented when above 5 (so
[ESC,'[','1','7','~'] is f6), x = '2' gives d - '0' + 9 decremented when
above 10, each consuming all five bytes, and every other byte x that
reaches this branch (not an arrow/home/end terminator, not Z, not 'P'..'S')
yields the null signal. -/
theorem claim_C6 :
    decodeBuffer [27, 91, 49, 55, 126] = some [keyEvent "f6"] ∧
    (∀ d : Nat, d < 58 → 48 ≤ d →
      decodeBuffer [27, 91, 49, d, 126] =
        some [keyEvent ("f" ++ toString (if 5 < d - 48 then d - 48 - 1 else d - 48))]) ∧
    (∀ d : Nat, d < 58 → 48 ≤ d →
      decodeBuffer [27, 91, 50, d, 126] =
        some [keyEvent ("f" ++ toString (if 10 < d - 48 + 9 then d - 48 + 8 else d - 48 + 9))]) ∧
    (∀ x : Nat, x < 256 → ∀ d : Nat, d < 58 → csiOtherByte x d →
      decodeBuffer [27, 91, x, d, 126] = none) :=
  ⟨by decide, by decide, by decide, by decide⟩

/-- C6 witness: the x = '1' rule applied to d = '7' yields f6. -/
theorem claim_C6_witness :
    decodeBuffer [27, 91, 49, 55, 126] =
      some [keyEvent ("f" ++ toString (if 5 < 55 - 48 then 55 - 48 - 1 else 55 - 48))] :=
  claim_C6.2.1 55 (by decide) (by decide)

/-- C7 (amended): on the exact 4-byte buffer [Cancel,'@','s',ESC] the alt
flag IS set — the meta-prefix alt check accepts ESC at index 3 with no
requirement that more than one byte remain — so the char position 4 lies
past the end of the buffer and decode returns the null signal (incomplete)
instead of producing an escape event. -/
theorem claim_C7 :
    legacyAlt [24, 64, 115, 27] = true ∧ decodeBuffer [24, 64, 115, 27] = none := by decide

/-- C7 counterexample: the claimed single escape event with meta and no alt
is not what decode returns on [Cancel,'@','s',ESC]. -/
theorem claim_C7_counterexample :
    decodeBuffer [24, 64, 115, 27] ≠ some [{ key := "escape", meta := true }] := by decide

/-- C8 (amended): every event produced by any decode call has a nonempty
key; the full vocabulary invariant fails because the SS3 and CSI function
key branches can emit names such as f121 outside f1..f12 (see the
counterexample). -/
theorem claim_C8 :
    ∀ (buffer : List Nat) (events : List KeyEvent),
      decodeBuffer buffer = some events → ∀ ev ∈ events, ev.key ≠ "" := by
  intro buffer events h
  exact decodeBufferAux_keys buffer.length buffer events h

/-- C8 witness: the nonempty-key invariant applied to decode(['a']). -/
theorem claim_C8_witness : (keyEvent "a").key ≠ "" :=
  claim_C8 [97] [keyEvent "a"] (by decide) (keyEvent "a") (by decide)

/-- C8 counterexample: decode([ESC,'O',200]) yields an event whose key
"f121" is neither a single character nor in the fixed named-key
vocabulary. -/
theorem claim_C8_counterexample :
    decodeBuffer [27, 79, 200] = some [keyEvent "f121"] ∧ ¬ vocabKey "f121" := by decide

/-- C9: decoding is total — the empty buffer yields the failure signal, and
every buffer yields either the failure signal (the source's collapsed
Incomplete/Unrecognized null) or a non-empty ordered event list. -/
theorem claim_C9 :
    decodeBuffer [] = none ∧
    ∀ buffer : List Nat,
      decodeBuffer buffer = none ∨ ∃ e es, decodeBuffer buffer = some (e :: es) := by
  constructor
  · decide
  · intro buffer
    exact decodeBufferAux_shape buffer.length buffer

/-- C10: every consumed length a branch hands to the Multi-Event Splitter is
at least 1 and at most the buffer length, so the recursively decoded tail is
a strictly shorter suffix of the buffer. -/
theorem claim_C10 :
    ∀ (buffer : List Nat) (ev : KeyEvent) (consumed : Nat),
      dispatch buffer = some (ev, consumed) →
      1 ≤ consumed ∧ consumed ≤ buffer.length ∧
        (buffer.drop consumed).length < buffer.length := by
  intro buffer ev consumed h
  obtain ⟨⟨h1, h2⟩, -⟩ := dispatch_spec h
  refine ⟨h1, h2, ?_⟩
  rw [List.length_drop]
  omega

/-- C10 witness: the consumed-length bound applied to decode(['a']). -/
theorem claim_C10_witness :
    1 ≤ 1 ∧ 1 ≤ ([97] : List Nat).length ∧
      (([97] : List Nat).drop 1).length < ([97] : List Nat).length :=
  claim_C10 [97] (keyEvent "a") 1 (by decide)
